import Mathlib

/-!
Verification of the query-reformulation repository's core logic.

The Python sources are shallowly embedded as executable Lean functions over
`List Char` (one `Char` per Python code point, matching `len`/indexing on
`str`).  Bounded `while` loops are embedded as structurally recursive
functions on an explicit fuel argument whose initial value provably exceeds
the number of iterations the Python loop can perform, so that the embedded
functions still evaluate by kernel reduction.
-/

namespace Repro

/-! ### Python string helpers (`src/methods/base.py` and stdlib behaviours) -/

/-- The whitespace characters stripped by Python's `str.strip()` /
split by `str.split()` (ASCII subset, which covers every string this
code base manipulates). -/
def isPyWs (c : Char) : Bool :=
  c = ' ' || c = '\t' || c = '\n' || c = '\r' || c = '\x0b' || c = '\x0c'

/-- `text.replace("\n", " ").replace("\r", " ").replace("\t", " ")`
from `_clean` (`base.py` line 104): the three single-character
replacements compose into one character map. -/
def wsFix (c : Char) : Char :=
  if c = '\n' || c = '\r' || c = '\t' then ' ' else c

/-- One execution of `text.replace("  ", " ")`: left-to-right,
non-overlapping replacement of two spaces by one. -/
def replaceDouble : List Char → List Char
  | c₁ :: c₂ :: rest =>
    if c₁ = ' ' ∧ c₂ = ' ' then ' ' :: replaceDouble rest
    else c₁ :: replaceDouble (c₂ :: rest)
  | l => l

/-- The guard of the `while "  " in text` loop in `_clean`. -/
def hasDouble : List Char → Bool
  | c₁ :: c₂ :: rest => (c₁ = ' ' && c₂ = ' ') || hasDouble (c₂ :: rest)
  | _ => false

/-- The `while "  " in text: text = text.replace("  ", " ")` loop of
`_clean`, with fuel.  Each iteration strictly shortens the string, so
`length + 1` units of fuel always suffice. -/
def collapseN : Nat → List Char → List Char
  | 0, cs => cs
  | n + 1, cs => if hasDouble cs then collapseN n (replaceDouble cs) else cs

/-- `str.strip`-style stripping with an arbitrary character predicate:
drop matching characters from both ends. -/
def pyStripP (p : Char → Bool) (cs : List Char) : List Char :=
  ((cs.dropWhile p).reverse.dropWhile p).reverse

/-- `_clean` (`base.py` lines 98–107): replace `\n`, `\r`, `\t` by
spaces, collapse runs of spaces, then `strip().strip('"').strip("'")`. -/
def cleanList (cs : List Char) : List Char :=
  let t1 := cs.map wsFix
  let t2 := collapseN (t1.length + 1) t1
  let t3 := pyStripP isPyWs t2
  let t4 := pyStripP (fun c => c = '"') t3
  pyStripP (fun c => c = '\'') t4

/-- `_clean` on `String`s. -/
def pyClean (s : String) : String := ⟨cleanList s.data⟩

/-- Python `" ".join(parts)` on character lists. -/
def sepJoin : List (List Char) → List Char
  | [] => []
  | [x] => x
  | x :: y :: rest => x ++ ' ' :: sepJoin (y :: rest)

/-- Python `" ".join` on `String`s. -/
def strJoinSpace (xs : List String) : String := ⟨sepJoin (xs.map String.data)⟩

/-! ### Text-composition primitives (`base.py` lines 77–95) -/

/-- `BaseMethod.concat_repeat`: the parts `[query] * repeats + [generated]`,
space-joined and `_clean`-normalised. -/
def concat_repeat (query generated : String) (repeats : Nat) : String :=
  ⟨cleanList (sepJoin (List.replicate repeats query.data ++ [generated.data]))⟩

/-- `BaseMethod.concat_adaptive`:
`reps = max(1, (len(generated) // max(1, len(query))) // ratio)`;
`_clean((query + " ") * reps + generated)`. -/
def concat_adaptive (query generated : String) (ratio : Nat) : String :=
  let reps := max 1 ((generated.data.length / max 1 query.data.length) / ratio)
  ⟨cleanList ((List.replicate reps (query.data ++ [' '])).flatten ++ generated.data)⟩

/-- `BaseMethod.concat_interleave`: the parts `q p₁ q p₂ …`, space-joined
and `_clean`-normalised. -/
def concat_interleave (query : String) (passages : List String) : String :=
  ⟨cleanList (sepJoin (passages.flatMap (fun p => [query.data, p.data])))⟩

/-! ### Whitespace tokenisation (Python `str.split()` with no argument) -/

/-- Emit a pending (reversed) token in front of a token list. -/
def flushAcc : List Char → List (List Char) → List (List Char)
  | [], tl => tl
  | a :: as, tl => (a :: as).reverse :: tl

/-- Worker for `tokens`: scan characters, accumulating the current token
in reverse. -/
def tokensAux : List Char → List Char → List (List Char)
  | [], acc => flushAcc acc []
  | c :: rest, acc =>
    if isPyWs c then flushAcc acc (tokensAux rest [])
    else tokensAux rest (c :: acc)

/-- Python `str.split()` with no argument: split on whitespace runs,
dropping empty pieces. -/
def tokens (cs : List Char) : List (List Char) := tokensAux cs []

theorem flushAcc_append (acc : List Char) (tl : List (List Char)) :
    flushAcc acc tl = flushAcc acc [] ++ tl := by
  cases acc <;> rfl

theorem tokensAux_ws {c : Char} (h : isPyWs c = true) (rest acc : List Char) :
    tokensAux (c :: rest) acc = flushAcc acc (tokensAux rest []) := by
  simp [tokensAux, h]

theorem tokensAux_not_ws {c : Char} (h : isPyWs c = false) (rest acc : List Char) :
    tokensAux (c :: rest) acc = tokensAux rest (c :: acc) := by
  simp [tokensAux, h]

theorem wsFix_of_not_ws {c : Char} (h : isPyWs c = false) : wsFix c = c := by
  simp only [isPyWs, Bool.or_eq_false_iff, decide_eq_false_iff_not] at h
  obtain ⟨⟨⟨⟨⟨_, h2⟩, h3⟩, h4⟩, _⟩, _⟩ := h
  simp [wsFix, h2, h3, h4]

theorem isPyWs_wsFix (c : Char) : isPyWs (wsFix c) = isPyWs c := by
  unfold wsFix
  split
  · rename_i h
    simp only [Bool.or_eq_true, decide_eq_true_eq] at h
    rcases h with (h | h) | h <;> subst h <;> rfl
  · rfl

theorem wsFix_ne_bad (a : Char) :
    wsFix a ≠ '\t' ∧ wsFix a ≠ '\n' ∧ wsFix a ≠ '\r' := by
  unfold wsFix
  split
  · exact ⟨by decide, by decide, by decide⟩
  · rename_i h
    simp only [Bool.or_eq_true, decide_eq_true_eq, not_or] at h
    exact ⟨h.2, h.1.1, h.1.2⟩

theorem tokensAux_map_wsFix : ∀ (cs acc : List Char),
    tokensAux (cs.map wsFix) acc = tokensAux cs acc
  | [], _ => rfl
  | c :: rest, acc => by
    rw [List.map_cons]
    cases hc : isPyWs c with
    | true =>
      rw [tokensAux_ws ((isPyWs_wsFix c).trans hc),
        tokensAux_ws hc, tokensAux_map_wsFix rest []]
    | false =>
      rw [wsFix_of_not_ws hc, tokensAux_not_ws hc, tokensAux_not_ws hc,
        tokensAux_map_wsFix rest (c :: acc)]

theorem tokensAux_replaceDouble : ∀ (cs acc : List Char),
    tokensAux (replaceDouble cs) acc = tokensAux cs acc
  | [], _ => rfl
  | [_], _ => rfl
  | c₁ :: c₂ :: rest, acc => by
    show tokensAux (replaceDouble (c₁ :: c₂ :: rest)) acc = _
    unfold replaceDouble
    split
    · rename_i h
      obtain ⟨h1, h2⟩ := h
      subst h1; subst h2
      simp only [tokensAux_ws (by decide : isPyWs ' ' = true)]
      rw [tokensAux_replaceDouble rest []]
      rfl
    · cases hc : isPyWs c₁ with
      | true =>
        rw [tokensAux_ws hc, tokensAux_ws hc, tokensAux_replaceDouble (c₂ :: rest) []]
      | false =>
        rw [tokensAux_not_ws hc, tokensAux_not_ws hc,
          tokensAux_replaceDouble (c₂ :: rest) (c₁ :: acc)]

theorem tokensAux_collapseN : ∀ (n : Nat) (cs acc : List Char),
    tokensAux (collapseN n cs) acc = tokensAux cs acc
  | 0, _, _ => rfl
  | n + 1, cs, acc => by
    unfold collapseN
    split
    · rw [tokensAux_collapseN n (replaceDouble cs) acc, tokensAux_replaceDouble]
    · rfl

theorem tokensAux_dropWhile_ws : ∀ cs : List Char,
    tokensAux (List.dropWhile isPyWs cs) [] = tokensAux cs []
  | [] => rfl
  | c :: rest => by
    rw [List.dropWhile_cons]
    cases hc : isPyWs c with
    | true =>
      rw [if_pos rfl, tokensAux_dropWhile_ws rest, tokensAux_ws hc]
      rfl
    | false =>
      rw [if_neg (by simp)]

theorem tokensAux_all_ws : ∀ (b : List Char), (∀ c ∈ b, isPyWs c = true) →
    ∀ acc, tokensAux b acc = flushAcc acc []
  | [], _, _ => rfl
  | c :: rest, hb, acc => by
    rw [tokensAux_ws (hb c (by simp)) rest acc,
      tokensAux_all_ws rest (fun x hx => hb x (by simp [hx])) []]
    rfl

theorem tokensAux_append_all_ws : ∀ (a b : List Char), (∀ c ∈ b, isPyWs c = true) →
    ∀ acc, tokensAux (a ++ b) acc = tokensAux a acc
  | [], b, hb, acc => by
    rw [List.nil_append, tokensAux_all_ws b hb acc]; rfl
  | c :: rest, b, hb, acc => by
    rw [List.cons_append]
    cases hc : isPyWs c with
    | true =>
      rw [tokensAux_ws hc, tokensAux_ws hc, tokensAux_append_all_ws rest b hb []]
    | false =>
      rw [tokensAux_not_ws hc, tokensAux_not_ws hc,
        tokensAux_append_all_ws rest b hb (c :: acc)]

theorem tokens_pyStripP_ws (cs : List Char) :
    tokens (pyStripP isPyWs cs) = tokens cs := by
  unfold pyStripP tokens
  set a := cs.dropWhile isPyWs with ha
  have hsplit : a = (List.dropWhile isPyWs a.reverse).reverse ++
      (List.takeWhile isPyWs a.reverse).reverse := by
    rw [← List.reverse_append, List.takeWhile_append_dropWhile, List.reverse_reverse]
  have hws : ∀ c ∈ (List.takeWhile isPyWs a.reverse).reverse, isPyWs c = true := by
    intro c hc
    rw [List.mem_reverse] at hc
    exact List.mem_takeWhile_imp hc
  calc tokensAux (List.dropWhile isPyWs a.reverse).reverse []
      = tokensAux ((List.dropWhile isPyWs a.reverse).reverse ++
          (List.takeWhile isPyWs a.reverse).reverse) [] := by
        rw [tokensAux_append_all_ws _ _ hws]
    _ = tokensAux a [] := by rw [← hsplit]
    _ = tokensAux cs [] := tokensAux_dropWhile_ws cs

theorem dropWhile_eq_self_of_all {p : Char → Bool} :
    ∀ cs : List Char, (∀ c ∈ cs, p c = false) → List.dropWhile p cs = cs
  | [], _ => rfl
  | c :: rest, h => by
    rw [List.dropWhile_cons, if_neg (by simp [h c (by simp)])]

theorem pyStripP_eq_self {p : Char → Bool} (cs : List Char)
    (h : ∀ c ∈ cs, p c = false) : pyStripP p cs = cs := by
  unfold pyStripP
  rw [dropWhile_eq_self_of_all cs h,
    dropWhile_eq_self_of_all cs.reverse (fun c hc => h c (List.mem_reverse.mp hc)),
    List.reverse_reverse]

theorem tokensAux_append_sep : ∀ (a b acc : List Char),
    tokensAux (a ++ ' ' :: b) acc = tokensAux a acc ++ tokensAux b []
  | [], b, acc => by
    rw [List.nil_append, tokensAux_ws (by decide), flushAcc_append]; rfl
  | c :: rest, b, acc => by
    rw [List.cons_append]
    cases hc : isPyWs c with
    | true =>
      rw [tokensAux_ws hc, tokensAux_ws hc, tokensAux_append_sep rest b [],
        flushAcc_append acc (tokensAux rest [] ++ tokensAux b []),
        flushAcc_append acc (tokensAux rest []), List.append_assoc]
    | false =>
      rw [tokensAux_not_ws hc, tokensAux_not_ws hc, tokensAux_append_sep rest b (c :: acc)]

theorem tokens_sepJoin : ∀ parts : List (List Char),
    tokens (sepJoin parts) = (parts.map tokens).flatten
  | [] => rfl
  | [x] => by simp [sepJoin]
  | x :: y :: rest => by
    show tokens (x ++ ' ' :: sepJoin (y :: rest)) = _
    unfold tokens
    rw [tokensAux_append_sep]
    have := tokens_sepJoin (y :: rest)
    unfold tokens at this
    rw [this]
    simp

/-! ### Membership through `_clean` -/

theorem mem_replaceDouble : ∀ (cs : List Char) (c : Char),
    c ∈ replaceDouble cs → c ∈ cs ∨ c = ' '
  | [], _, h => .inl h
  | [_], _, h => .inl h
  | c₁ :: c₂ :: rest, c, h => by
    unfold replaceDouble at h
    split at h
    · rcases List.mem_cons.mp h with h | h
      · exact .inr h
      · rcases mem_replaceDouble rest c h with h | h
        · exact .inl (by simp [h])
        · exact .inr h
    · rcases List.mem_cons.mp h with h | h
      · exact .inl (by simp [h])
      · rcases mem_replaceDouble (c₂ :: rest) c h with h | h
        · exact .inl (by simp [List.mem_cons.mp h])
        · exact .inr h

theorem mem_collapseN : ∀ (n : Nat) (cs : List Char) (c : Char),
    c ∈ collapseN n cs → c ∈ cs ∨ c = ' '
  | 0, _, _, h => .inl h
  | n + 1, cs, c, h => by
    unfold collapseN at h
    split at h
    · rcases mem_collapseN n (replaceDouble cs) c h with h | h
      · exact mem_replaceDouble cs c h
      · exact .inr h
    · exact .inl h

theorem mem_pyStripP {p : Char → Bool} {cs : List Char} {c : Char}
    (h : c ∈ pyStripP p cs) : c ∈ cs := by
  unfold pyStripP at h
  rw [List.mem_reverse] at h
  have h2 := (List.dropWhile_sublist _).mem h
  rw [List.mem_reverse] at h2
  exact (List.dropWhile_sublist _).mem h2

theorem wsFix_self_or_space (a : Char) : wsFix a = a ∨ wsFix a = ' ' := by
  unfold wsFix
  split
  · exact .inr rfl
  · exact .inl rfl

theorem cleanList_eq (cs : List Char) :
    cleanList cs = pyStripP (fun c => c = '\'')
      (pyStripP (fun c => c = '"')
        (pyStripP isPyWs (collapseN ((cs.map wsFix).length + 1) (cs.map wsFix)))) := rfl

theorem mem_stage_ws (cs : List Char) :
    ∀ c ∈ pyStripP isPyWs (collapseN ((cs.map wsFix).length + 1) (cs.map wsFix)),
      c ∈ cs ∨ c = ' ' := by
  intro c hc
  rcases mem_collapseN _ _ _ (mem_pyStripP hc) with h2 | h2
  · rcases List.mem_map.mp h2 with ⟨a, ha, hac⟩
    rcases wsFix_self_or_space a with hw | hw
    · exact .inl (by rw [← hac, hw]; exact ha)
    · exact .inr (by rw [← hac, hw])
  · exact .inr h2

theorem mem_cleanList {cs : List Char} {c : Char} (h : c ∈ cleanList cs) :
    c ∈ cs ∨ c = ' ' := by
  rw [cleanList_eq] at h
  exact mem_stage_ws cs c (mem_pyStripP (mem_pyStripP h))

theorem cleanList_no_bad (cs : List Char) :
    ∀ c ∈ cleanList cs, c ≠ '\t' ∧ c ≠ '\n' ∧ c ≠ '\r' := by
  intro c h
  rw [cleanList_eq] at h
  rcases mem_collapseN _ _ _ (mem_pyStripP (mem_pyStripP (mem_pyStripP h))) with h2 | h2
  · rcases List.mem_map.mp h2 with ⟨a, _, hac⟩
    rw [← hac]
    exact wsFix_ne_bad a
  · subst h2
    exact ⟨by decide, by decide, by decide⟩

theorem tokens_cleanList (cs : List Char)
    (h : ∀ c ∈ cs, c ≠ '"' ∧ c ≠ '\'') : tokens (cleanList cs) = tokens cs := by
  rw [cleanList_eq]
  set S := pyStripP isPyWs (collapseN ((cs.map wsFix).length + 1) (cs.map wsFix)) with hS
  have hq : ∀ c ∈ S, c ≠ '"' ∧ c ≠ '\'' := by
    intro c hc
    rw [hS] at hc
    rcases mem_stage_ws cs c hc with h2 | h2
    · exact h c h2
    · subst h2
      exact ⟨by decide, by decide⟩
  rw [pyStripP_eq_self S (fun c hc => decide_eq_false (hq c hc).1)]
  rw [pyStripP_eq_self S (fun c hc => decide_eq_false (hq c hc).2)]
  rw [hS, tokens_pyStripP_ws]
  unfold tokens
  rw [tokensAux_collapseN, tokensAux_map_wsFix]

theorem mem_sepJoin : ∀ (parts : List (List Char)) (c : Char),
    c ∈ sepJoin parts → c = ' ' ∨ ∃ p ∈ parts, c ∈ p
  | [], c, h => absurd h (List.not_mem_nil c)
  | [x], c, h => .inr ⟨x, by simp, h⟩
  | x :: y :: rest, c, h => by
    have h' : c ∈ x ++ ' ' :: sepJoin (y :: rest) := h
    rcases List.mem_append.mp h' with h2 | h2
    · exact .inr ⟨x, by simp, h2⟩
    · rcases List.mem_cons.mp h2 with h3 | h3
      · exact .inl h3
      · rcases mem_sepJoin (y :: rest) c h3 with h4 | ⟨p, hp, hcp⟩
        · exact .inl h4
        · exact .inr ⟨p, List.mem_cons_of_mem x hp, hcp⟩

theorem concat_repeat_data (q g : String) (n : Nat) :
    (concat_repeat q g n).data =
      cleanList (sepJoin (List.replicate n q.data ++ [g.data])) := rfl

/-- Token-level content of `concat_repeat` for quote-free inputs: the output
splits into `repeats` copies of the query's tokens followed by the generated
text's tokens. -/
theorem tokens_concat_repeat (q g : String) (n : Nat)
    (hq : ∀ c ∈ q.data, c ≠ '"' ∧ c ≠ '\'') (hg : ∀ c ∈ g.data, c ≠ '"' ∧ c ≠ '\'') :
    tokens (concat_repeat q g n).data =
      (List.replicate n (tokens q.data)).flatten ++ tokens g.data := by
  have hfree : ∀ c ∈ sepJoin (List.replicate n q.data ++ [g.data]), c ≠ '"' ∧ c ≠ '\'' := by
    intro c hc
    rcases mem_sepJoin _ c hc with h | ⟨p, hp, hcp⟩
    · subst h
      exact ⟨by decide, by decide⟩
    · rcases List.mem_append.mp hp with h | h
      · exact hq c ((List.eq_of_mem_replicate h) ▸ hcp)
      · rw [List.mem_singleton] at h
        exact hg c (h ▸ hcp)
  rw [concat_repeat_data, tokens_cleanList _ hfree, tokens_sepJoin,
    List.map_append, List.map_replicate]
  simp

/-! ### Claim C3 -/

/-- **C3 counterexample.** As universally stated the claim fails: `_clean`
also strips quote characters from the ends of the result, so for the query
`"a"` (with literal double quotes) and one repeat the output is `a" b`, which
does not contain the query at all — neither as a token run (the token lists
differ) nor as a substring. -/
theorem c3_counterexample :
    concat_repeat "\"a\"" "b" 1 = "a\" b"
    ∧ tokens (concat_repeat "\"a\"" "b" 1).data ≠
        (List.replicate 1 (tokens ("\"a\"" : String).data)).flatten ++
          tokens ("b" : String).data :=
  ⟨by decide, by decide⟩

/-- **C3 (amended).** For every query, generated string and repeat count:
provided neither the query nor the generated text contains a quote
character (the case the counterexample exhibits), the output of
`concat_repeat` consists, at the whitespace-token level, of exactly
`repeats` consecutive copies of the query's tokens followed by the
generated text's tokens; and — for all inputs whatsoever, with no proviso —
the output contains no embedded tab or newline characters. -/
theorem c3_repeat_token_runs (q g : String) (n : Nat) :
    ((∀ c ∈ q.data, c ≠ '"' ∧ c ≠ '\'') → (∀ c ∈ g.data, c ≠ '"' ∧ c ≠ '\'') →
      tokens (concat_repeat q g n).data =
        (List.replicate n (tokens q.data)).flatten ++ tokens g.data)
    ∧ ∀ c ∈ (concat_repeat q g n).data, c ≠ '\t' ∧ c ≠ '\n' :=
  ⟨fun hq hg => tokens_concat_repeat q g n hq hg,
   fun c hc => by
    rw [concat_repeat_data] at hc
    exact ⟨(cleanList_no_bad _ c hc).1, (cleanList_no_bad _ c hc).2.1⟩⟩

/-- Witness for C3: the token-run clause applied at query `"ab"`, generated
`"cd"`, 2 repeats, with its quote-free side conditions discharged, and the
no-tab/newline clause applied at a quote-bearing input. -/
theorem c3_repeat_token_runs_witness :
    (tokens (concat_repeat "ab" "cd" 2).data =
        (List.replicate 2 (tokens ("ab" : String).data)).flatten ++
          tokens ("cd" : String).data)
    ∧ (∀ c ∈ (concat_repeat "ab" "cd" 2).data, c ≠ '\t' ∧ c ≠ '\n')
    ∧ (∀ c ∈ (concat_repeat "\"a\"" "b" 1).data, c ≠ '\t' ∧ c ≠ '\n') :=
  ⟨(c3_repeat_token_runs "ab" "cd" 2).1 (by decide) (by decide),
   (c3_repeat_token_runs "ab" "cd" 2).2,
   (c3_repeat_token_runs "\"a\"" "b" 1).2⟩

/-! ### Claim C1 -/

/-- **C1.** `concat_adaptive(query, generated, ratio)` with positive `ratio`
computes `reps = max(1, (len(generated) // max(1, len(query))) // ratio)` and
returns the query (with a trailing space) repeated `reps` times followed by
the generated text, `_clean`-normalised; the divisor is the guarded
`max(1, len(query))`, which equals `1` when the query is empty (so the empty
query never divides by zero), and `reps ≥ 1` always. -/
theorem c1_concat_adaptive_formula (query generated : String) (ratio : Nat)
    (_hr : 0 < ratio) :
    concat_adaptive query generated ratio =
      ⟨cleanList ((List.replicate
          (max 1 ((generated.data.length / max 1 query.data.length) / ratio))
          (query.data ++ [' '])).flatten ++ generated.data)⟩
    ∧ 1 ≤ max 1 ((generated.data.length / max 1 query.data.length) / ratio)
    ∧ (query = "" → max 1 query.data.length = 1) := by
  refine ⟨rfl, le_max_left _ _, fun hq => ?_⟩
  subst hq
  rfl

/-- Witness for C1 at concrete inputs: query `"ab"`, a 30-character generated
string, ratio 5 (so `reps = max 1 ((30 / 2) / 5) = 3`). -/
theorem c1_concat_adaptive_formula_witness :
    (0 : Nat) < 5 ∧
    (concat_adaptive "ab" "cccccccccccccccccccccccccccccc" 5 =
        ⟨cleanList ((List.replicate
            (max 1 (("cccccccccccccccccccccccccccccc".data.length /
              max 1 ("ab".data.length)) / 5))
            ("ab".data ++ [' '])).flatten ++ "cccccccccccccccccccccccccccccc".data)⟩
      ∧ 1 ≤ max 1 (("cccccccccccccccccccccccccccccc".data.length /
          max 1 ("ab".data.length)) / 5)
      ∧ ("ab" = "" → max 1 ("ab".data.length) = 1)) :=
  ⟨by decide,
   c1_concat_adaptive_formula "ab" "cccccccccccccccccccccccccccccc" 5 (by decide)⟩

/-! ### JSON values and a model of Python's `json.loads`

`qa_expand.py` calls the standard-library parser `json.loads`; the library
is outside the repository, so the functions below model its documented
strict-JSON behaviour (plus the `NaN`/`Infinity` extensions Python accepts
by default).  Parsing is a fuel-indexed recursive-descent scanner so that it
evaluates by kernel reduction; the fuel passed by `jsonLoads` exceeds the
scanner's maximal recursion depth for the given input. -/

inductive Json where
  | null
  | bool (b : Bool)
  | num (lex : String)
  | str (s : String)
  | arr (elems : List Json)
  | obj (kvs : List (String × Json))

/-- JSON inter-token whitespace (`' '`, `'\t'`, `'\n'`, `'\r'`). -/
def isJsonWs (c : Char) : Bool := c = ' ' || c = '\t' || c = '\n' || c = '\r'

def skipWs (cs : List Char) : List Char := cs.dropWhile isJsonWs

def hexVal (c : Char) : Option Nat :=
  if '0' ≤ c ∧ c ≤ '9' then some (c.toNat - '0'.toNat)
  else if 'a' ≤ c ∧ c ≤ 'f' then some (c.toNat - 'a'.toNat + 10)
  else if 'A' ≤ c ∧ c ≤ 'F' then some (c.toNat - 'A'.toNat + 10)
  else none

/-- Scan a JSON string body (the part after the opening quote), handling
escape sequences; unescaped control characters are rejected as in Python's
strict mode. -/
def parseStringBody : List Char → List Char → Option (String × List Char)
  | [], _ => none
  | '"' :: rest, acc => some (⟨acc.reverse⟩, rest)
  | '\\' :: esc :: rest, acc =>
    if esc = '"' then parseStringBody rest ('"' :: acc)
    else if esc = '\\' then parseStringBody rest ('\\' :: acc)
    else if esc = '/' then parseStringBody rest ('/' :: acc)
    else if esc = 'b' then parseStringBody rest ('\x08' :: acc)
    else if esc = 'f' then parseStringBody rest ('\x0c' :: acc)
    else if esc = 'n' then parseStringBody rest ('\n' :: acc)
    else if esc = 'r' then parseStringBody rest ('\r' :: acc)
    else if esc = 't' then parseStringBody rest ('\t' :: acc)
    else if esc = 'u' then
      match rest with
      | h1 :: h2 :: h3 :: h4 :: rest2 =>
        match hexVal h1, hexVal h2, hexVal h3, hexVal h4 with
        | some a, some b, some c, some d =>
          parseStringBody rest2 (Char.ofNat (((a * 16 + b) * 16 + c) * 16 + d) :: acc)
        | _, _, _, _ => none
      | _ => none
    else none
  | c :: rest, acc =>
    if c.toNat < 32 then none else parseStringBody rest (c :: acc)

def digitSpan (cs : List Char) : List Char × List Char :=
  (cs.takeWhile Char.isDigit, cs.dropWhile Char.isDigit)

/-- JSON integer part: `0` or a nonzero digit followed by digits. -/
def parseIntPart : List Char → Option (List Char × List Char)
  | '0' :: rest => some (['0'], rest)
  | c :: rest =>
    if c.isDigit then
      let (ds, r) := digitSpan rest
      some (c :: ds, r)
    else none
  | [] => none

def parseFrac : List Char → Option (List Char × List Char)
  | '.' :: rest =>
    let (ds, r) := digitSpan rest
    if ds.isEmpty then none else some ('.' :: ds, r)
  | cs => some ([], cs)

def parseExp : List Char → Option (List Char × List Char)
  | e :: rest =>
    if e = 'e' ∨ e = 'E' then
      match rest with
      | s :: rest2 =>
        if s = '+' ∨ s = '-' then
          let (ds, r) := digitSpan rest2
          if ds.isEmpty then none else some (e :: s :: ds, r)
        else
          let (ds, r) := digitSpan (s :: rest2)
          if ds.isEmpty then none else some (e :: ds, r)
      | [] => none
    else some ([], e :: rest)
  | [] => some ([], [])

/-- JSON number token; the value is kept as its lexeme (no claim inspects
numeric values, only whether a value is a string). -/
def parseNumber (cs : List Char) : Option (String × List Char) :=
  match cs with
  | '-' :: rest => do
    let (i, r1) ← parseIntPart rest
    let (f, r2) ← parseFrac r1
    let (e, r3) ← parseExp r2
    some (⟨'-' :: (i ++ f ++ e)⟩, r3)
  | _ => do
    let (i, r1) ← parseIntPart cs
    let (f, r2) ← parseFrac r1
    let (e, r3) ← parseExp r2
    some (⟨i ++ f ++ e⟩, r3)

/-- Parser state: a value, an array element list, or an object member list. -/
inductive PMode where
  | val
  | els (acc : List Json)
  | mems (acc : List (String × Json))

def parseStep : Nat → PMode → List Char → Option (Json × List Char)
  | 0, _, _ => none
  | fuel + 1, .val, cs =>
    match skipWs cs with
    | '{' :: rest =>
      (match skipWs rest with
       | '}' :: r2 => some (.obj [], r2)
       | r2 => parseStep fuel (.mems []) r2)
    | '[' :: rest =>
      (match skipWs rest with
       | ']' :: r2 => some (.arr [], r2)
       | r2 => parseStep fuel (.els []) r2)
    | '"' :: rest => (parseStringBody rest []).map (fun p => (.str p.1, p.2))
    | 't' :: 'r' :: 'u' :: 'e' :: rest => some (.bool true, rest)
    | 'f' :: 'a' :: 'l' :: 's' :: 'e' :: rest => some (.bool false, rest)
    | 'n' :: 'u' :: 'l' :: 'l' :: rest => some (.null, rest)
    | 'N' :: 'a' :: 'N' :: rest => some (.num "NaN", rest)
    | 'I' :: 'n' :: 'f' :: 'i' :: 'n' :: 'i' :: 't' :: 'y' :: rest =>
      some (.num "Infinity", rest)
    | '-' :: 'I' :: 'n' :: 'f' :: 'i' :: 'n' :: 'i' :: 't' :: 'y' :: rest =>
      some (.num "-Infinity", rest)
    | other => (parseNumber other).map (fun p => (.num p.1, p.2))
  | fuel + 1, .mems acc, cs =>
    match skipWs cs with
    | '"' :: rest =>
      (match parseStringBody rest [] with
       | none => none
       | some (k, r1) =>
         match skipWs r1 with
         | ':' :: r2 =>
           (match parseStep fuel .val r2 with
            | none => none
            | some (v, r3) =>
              match skipWs r3 with
              | ',' :: r4 => parseStep fuel (.mems ((k, v) :: acc)) r4
              | '}' :: r4 => some (.obj ((k, v) :: acc).reverse, r4)
              | _ => none)
         | _ => none)
    | _ => none
  | fuel + 1, .els acc, cs =>
    match parseStep fuel .val cs with
    | none => none
    | some (v, r1) =>
      match skipWs r1 with
      | ',' :: r2 => parseStep fuel (.els (v :: acc)) r2
      | ']' :: r2 => some (.arr (v :: acc).reverse, r2)
      | _ => none

/-- Model of `json.loads`: parse one value and require only whitespace to
follow, as Python raises `Extra data` otherwise. -/
def jsonLoads (cs : List Char) : Option Json :=
  match parseStep (2 * cs.length + 2) .val cs with
  | some (j, rest) => if (skipWs rest).isEmpty then some j else none
  | none => none

/-! ### `_robust_json` (`qa_expand.py` lines 97–107) -/

/-- The backquote character (code 96). -/
def fenceChar : Char := Char.ofNat 96

/-- Locate the first triple-backquote fence: returns the text before it and
the text after it, mirroring one step of Python's `text.split("```" )`. -/
def splitFence : List Char → Option (List Char × List Char)
  | a :: b :: c :: rest =>
    if a = fenceChar ∧ b = fenceChar ∧ c = fenceChar then some ([], rest)
    else
      match splitFence (b :: c :: rest) with
      | some (pre, post) => some (a :: pre, post)
      | none => none
  | _ => none

/-- The fence-stripping step of `_robust_json`: when a fence is present,
keep `parts[1]` of the fence split and drop a leading `json` tag. -/
def robustJsonBody (cs : List Char) : List Char :=
  match splitFence cs with
  | none => cs
  | some (_, after1) =>
    let part1 :=
      match splitFence after1 with
      | none => after1
      | some (pre, _) => pre
    if part1.take 4 = ['j', 's', 'o', 'n'] then part1.drop 4 else part1

/-- `_robust_json`: strip, remove a markdown fence, strip again, parse. -/
def robustJson (s : String) : Option Json :=
  jsonLoads (pyStripP isPyWs (robustJsonBody (pyStripP isPyWs s.data)))

/-! ### `_parse_list` and `_extract_kept_answers` (`qa_expand.py` lines 73–94) -/

/-- `dict.get` on the association list built by the object parser;
later duplicates win, matching `dict` construction from `json.loads`. -/
def dictGet (kvs : List (String × Json)) (k : String) : Option Json :=
  kvs.foldl (fun acc kv => if kv.1 = k then some kv.2 else acc) none

/-- The characters split on by Python `str.splitlines`. -/
def isLineBreak (c : Char) : Bool :=
  c = '\n' || c = '\r' || c = '\x0b' || c = '\x0c' ||
  c = '\x1c' || c = '\x1d' || c = '\x1e' || c = '\x85' ||
  c = '\u2028' || c = '\u2029'

def splitLinesAux : List Char → List Char → List (List Char)
  | [], acc => if acc.isEmpty then [] else [acc.reverse]
  | '\r' :: '\n' :: rest, acc => acc.reverse :: splitLinesAux rest []
  | c :: rest, acc =>
    if isLineBreak c then acc.reverse :: splitLinesAux rest []
    else splitLinesAux rest (c :: acc)

/-- Python `str.splitlines()`. -/
def splitLines (cs : List Char) : List (List Char) := splitLinesAux cs []

/-- The bullet characters stripped by `l.strip("-•* \t")`. -/
def isBullet (c : Char) : Bool :=
  c = '-' || c = '•' || c = '*' || c = ' ' || c = '\t'

/-- The `except` branch of `_parse_list`: split raw text into lines,
keep the non-blank ones with bullet markers stripped, pad with empty
strings and truncate to exactly `n` entries. -/
def fallbackLines (raw : String) (n : Nat) : List Json :=
  let lines := ((splitLines raw.data).filter
      (fun l => !(pyStripP isPyWs l).isEmpty)).map
      (fun l => Json.str ⟨pyStripP isBullet l⟩)
  (lines ++ List.replicate n (Json.str "")).take n

/-- `QAExpand._parse_list`.  When `_robust_json` yields a JSON object the
keys `pre1..preN` are read with `dict.get(key, "")`; any failure — including
`json.loads` succeeding with a non-object, on which Python's `.get` raises —
takes the line-split fallback. -/
def parse_list (raw : String) (n : Nat) (pre : String) : List Json :=
  match robustJson raw with
  | some (.obj kvs) =>
    (List.range n).map (fun i => (dictGet kvs (pre ++ toString (i + 1))).getD (.str ""))
  | _ => fallbackLines raw n

def isStrJson : Json → Bool
  | .str _ => true
  | _ => false

/-- Truthiness of `value.strip()` for a looked-up JSON value that is a
string; `false` for non-strings (on which Python `.strip()` raises). -/
def jsonStripNonempty : Json → Bool
  | .str s => !(pyStripP isPyWs s.data).isEmpty
  | _ => false

/-- `QAExpand._extract_kept_answers`.  The comprehension
`[i for i in range(n) if data.get(f"answer{i+1}", "").strip()]` raises
`AttributeError` as soon as any examined value is not a string; that
exception — like a parse failure or a non-object parse — is caught and
yields `list(range(n))`. -/
def extract_kept_answers (raw : String) (n : Nat) : List Nat :=
  match robustJson raw with
  | some (.obj kvs) =>
    if (List.range n).all
        (fun i => isStrJson ((dictGet kvs ("answer" ++ toString (i + 1))).getD (.str ""))) then
      (List.range n).filter
        (fun i => jsonStripNonempty ((dictGet kvs ("answer" ++ toString (i + 1))).getD (.str "")))
    else List.range n
  | _ => List.range n

theorem fallbackLines_length (raw : String) (n : Nat) :
    (fallbackLines raw n).length = n := by
  unfold fallbackLines
  rw [List.length_take, List.length_append, List.length_replicate]
  omega

theorem parse_list_length (raw : String) (n : Nat) (pre : String) :
    (parse_list raw n pre).length = n := by
  unfold parse_list
  split
  · rw [List.length_map, List.length_range]
  · exact fallbackLines_length raw n

/-! ### Claim C6 -/

/-- **C6.** `_parse_list` never raises (it is a total function into lists):
when `_robust_json` yields a JSON object it extracts the values of keys
`pre1..preN` in order with `""` for missing keys; when parsing fails it
takes the line-split fallback with bullet markers stripped; and in every
case the result has exactly `n` entries. -/
theorem c6_parse_list_robust (raw : String) (n : Nat) (pre : String) :
    (∀ kvs, robustJson raw = some (Json.obj kvs) →
      parse_list raw n pre =
        (List.range n).map
          (fun i => (dictGet kvs (pre ++ toString (i + 1))).getD (Json.str "")))
    ∧ (robustJson raw = none → parse_list raw n pre = fallbackLines raw n)
    ∧ (parse_list raw n pre).length = n := by
  refine ⟨?_, ?_, parse_list_length raw n pre⟩
  · intro kvs hk
    simp only [parse_list, hk]
  · intro hne
    simp only [parse_list, hne]

/-- Witness for C6: the non-JSON input `"- x\n- y"` takes the fallback and
yields exactly `["x", "y"]` with bullets stripped; the valid JSON object
`{"answer1": "x", "answer2": "y"}` is extracted in order. -/
theorem c6_parse_list_robust_witness :
    (robustJson "- x\n- y" = none
      ∧ parse_list "- x\n- y" 2 "answer" = [Json.str "x", Json.str "y"])
    ∧ (robustJson "\x7b\"answer1\": \"x\", \"answer2\": \"y\"\x7d" =
        some (Json.obj [("answer1", Json.str "x"), ("answer2", Json.str "y")])
      ∧ parse_list "\x7b\"answer1\": \"x\", \"answer2\": \"y\"\x7d" 2 "answer" =
          [Json.str "x", Json.str "y"]) := by
  constructor
  · refine ⟨rfl, ?_⟩
    rw [(c6_parse_list_robust "- x\n- y" 2 "answer").2.1 rfl]
    rfl
  · refine ⟨rfl, ?_⟩
    rw [(c6_parse_list_robust "\x7b\"answer1\": \"x\", \"answer2\": \"y\"\x7d" 2 "answer").1
      [("answer1", Json.str "x"), ("answer2", Json.str "y")] rfl]
    rfl

/-! ### Claim C9 -/

/-- **C9 counterexample.** The input `"[0]"` is valid JSON, so its parsing
*succeeds*; the claim then demands that exactly the indices with present,
non-empty `answerN` keys be kept — none here.  The code instead keeps every
index, because Python's `.get` on the resulting list raises and the
`except` branch returns `list(range(n))`. -/
theorem c9_counterexample :
    (robustJson "[0]").isSome = true
    ∧ extract_kept_answers "[0]" 1 = [0]
    ∧ extract_kept_answers "[0]" 1 ≠ ([] : List Nat) :=
  ⟨rfl, rfl, by decide⟩

/-- **C9 (amended).** `_extract_kept_answers` keeps exactly the indices
whose `answerN` values are strings that are non-empty after stripping when
`_robust_json` yields an object all of whose examined values are strings;
in every other case — JSON parse failure, a non-object parse (on which
`.get` raises), or any examined non-string value (on which `.strip` raises)
— it fails open and returns all of `0..n-1`. -/
theorem c9_extract_kept_fail_open (raw : String) (n : Nat) :
    (robustJson raw = none → extract_kept_answers raw n = List.range n)
    ∧ (∀ kvs, robustJson raw = some (Json.obj kvs) →
        (List.range n).all (fun i =>
          isStrJson ((dictGet kvs ("answer" ++ toString (i + 1))).getD (Json.str ""))) = true →
        extract_kept_answers raw n =
          (List.range n).filter (fun i =>
            jsonStripNonempty ((dictGet kvs ("answer" ++ toString (i + 1))).getD (Json.str ""))))
    ∧ (∀ kvs, robustJson raw = some (Json.obj kvs) →
        (List.range n).all (fun i =>
          isStrJson ((dictGet kvs ("answer" ++ toString (i + 1))).getD (Json.str ""))) = false →
        extract_kept_answers raw n = List.range n)
    ∧ (∀ j, robustJson raw = some j → (∀ kvs, j ≠ Json.obj kvs) →
        extract_kept_answers raw n = List.range n) := by
  refine ⟨?_, ?_, ?_, ?_⟩
  · intro h
    simp only [extract_kept_answers, h]
  · intro kvs hk hall
    simp only [extract_kept_answers, hk]
    rw [if_pos hall]
  · intro kvs hk hall
    simp only [extract_kept_answers, hk]
    rw [if_neg (by simp [hall])]
  · intro j hj hne
    simp only [extract_kept_answers, hj]
    cases j with
    | null => rfl
    | bool b => rfl
    | num l => rfl
    | str s => rfl
    | arr xs => rfl
    | obj kvs => exact absurd rfl (hne kvs)

/-- Witness for C9 at a well-formed refine completion: `answer1` is kept
(non-empty string) and `answer2` is dropped (whitespace-only string). -/
theorem c9_extract_kept_fail_open_witness :
    robustJson "\x7b\"answer1\": \"x\", \"answer2\": \" \"\x7d" =
      some (Json.obj [("answer1", Json.str "x"), ("answer2", Json.str " ")])
    ∧ extract_kept_answers "\x7b\"answer1\": \"x\", \"answer2\": \" \"\x7d" 2 = [0] := by
  refine ⟨rfl, ?_⟩
  rw [(c9_extract_kept_fail_open "\x7b\"answer1\": \"x\", \"answer2\": \" \"\x7d" 2).2.1
    [("answer1", Json.str "x"), ("answer2", Json.str " ")] rfl rfl]
  rfl

/-! ### Claim C10 -/

theorem extract_kept_sublist (raw : String) (n : Nat) :
    List.Sublist (extract_kept_answers raw n) (List.range n) := by
  unfold extract_kept_answers
  split
  · split
    · exact List.filter_sublist _
    · exact List.Sublist.refl _
  · exact List.Sublist.refl _

/-- **C10.** For every raw string and every `n`, the kept-answer extractor
returns a strictly increasing, duplicate-free list of indices within
`{0, …, n-1}`; combined with `_parse_list` always returning exactly `n`
answers, every kept index is a valid position into the parsed answers, so
the `i < len(answers)` guard in `reformulate_query` never rejects an
index. -/
theorem c10_kept_indices_safe (raw : String) (n : Nat) :
    (extract_kept_answers raw n).Pairwise (· < ·)
    ∧ (∀ i ∈ extract_kept_answers raw n, i < n)
    ∧ (extract_kept_answers raw n).Nodup
    ∧ (∀ (raw2 pre : String) (i : Nat), i ∈ extract_kept_answers raw n →
        i < (parse_list raw2 n pre).length) := by
  have hsub := extract_kept_sublist raw n
  have hmem : ∀ i ∈ extract_kept_answers raw n, i < n := fun i hi =>
    List.mem_range.mp (hsub.mem hi)
  refine ⟨(List.pairwise_lt_range n).sublist hsub, hmem,
    (List.nodup_range n).sublist hsub, ?_⟩
  intro raw2 pre i hi
  rw [parse_list_length]
  exact hmem i hi

/-- Witness for C10: on unparseable refine output every index is kept, and
each kept index is in bounds for the (fallback-)parsed answers. -/
theorem c10_kept_indices_safe_witness :
    0 ∈ extract_kept_answers "garbage" 3
    ∧ 0 < (parse_list "- x" 3 "answer").length :=
  ⟨by decide, (c10_kept_indices_safe "garbage" 3).2.2.2 "- x" "answer" 0 (by decide)⟩

/-! ### `CSQE._extract_sentences` (`csqe.py` lines 61–77)

The two regular expressions are embedded as explicit left-to-right scanners
with the backtracking behaviour of Python's `re` engine on these patterns. -/

/-- `re.findall(r'"([^"]+)"', text)`: non-overlapping quoted segments with
non-empty bodies, scanned left to right. -/
def findQuotedF : Nat → List Char → List (List Char)
  | 0, _ => []
  | fuel + 1, cs =>
    match cs with
    | [] => []
    | '"' :: rest =>
      let run := rest.takeWhile (fun c => c ≠ '"')
      match run, rest.drop run.length with
      | [], _ => findQuotedF fuel rest
      | _, '"' :: tail => run :: findQuotedF fuel tail
      | _, _ => []
    | _ :: rest => findQuotedF fuel rest

def findQuoted (cs : List Char) : List (List Char) := findQuotedF (cs.length + 1) cs

/-- The literal part of `^Relevant Documents?:?\s*\n?` lower-cased. -/
def headerLit : List Char := "relevant document".data

/-- Case-insensitive literal prefix matching, returning the rest. -/
def stripPrefixCI : List Char → List Char → Option (List Char)
  | [], cs => some cs
  | _ :: _, [] => none
  | p :: ps, c :: rest => if c.toLower = p then stripPrefixCI ps rest else none

/-- Match `Relevant Documents?:?\s*\n?` (case-insensitively) at the current
position.  Returns the rest of the text and whether the last consumed
character was a newline (so that the next position is again a line start
for the `re.MULTILINE` anchor).  The greedy `\s*` consumes every whitespace
character, after which the optional `\n?` necessarily matches empty. -/
def matchHeader (cs : List Char) : Option (List Char × Bool) :=
  match stripPrefixCI headerLit cs with
  | none => none
  | some r1 =>
    let r2 := if r1.head? = some 's' ∨ r1.head? = some 'S' then r1.tail else r1
    let r3 := if r2.head? = some ':' then r2.tail else r2
    let ws := r3.takeWhile isPyWs
    some (r3.drop ws.length, ws.getLast? = some '\n')

/-- `re.sub(r"^Relevant Documents?:?\s*\n?", "", text, flags=I|M)`: delete
every line-start occurrence of the header, scanning left to right. -/
def subHeaderF : Nat → Bool → List Char → List Char
  | 0, _, cs => cs
  | fuel + 1, atStart, cs =>
    match cs with
    | [] => []
    | c :: rest =>
      if atStart then
        match matchHeader (c :: rest) with
        | some (r, nl) => subHeaderF fuel nl r
        | none => c :: subHeaderF fuel (c = '\n') rest
      else c :: subHeaderF fuel (c = '\n') rest

def subHeader (cs : List Char) : List Char := subHeaderF (cs.length + 1) true cs

/-- Does the text start with `\d+[.:]` (one or more digits then a dot or
colon)?  No backtracking is possible: shortening the greedy digit run
leaves a digit, which is neither `.` nor `:`. -/
def startsNumDot (cs : List Char) : Bool :=
  let ds := cs.takeWhile Char.isDigit
  match ds, cs.drop ds.length with
  | _ :: _, c :: _ => c = '.' || c = ':'
  | _, _ => false

/-- The lookahead `(?=\d+[.:]|$)` of the chunk pattern, where `$` without
`re.MULTILINE` matches at the end of the text or just before a final
newline. -/
def chunkEnd (rest : List Char) : Bool :=
  startsNumDot rest || rest.isEmpty || rest = ['\n']

/-- The lazy group `(.+?)` under `re.DOTALL`: the shortest non-empty prefix
whose remainder satisfies the lookahead.  Returns the capture and the
remainder (the lookahead consumes nothing). -/
def lazyCapture : List Char → List Char → Option (List Char × List Char)
  | acc, c :: rest =>
    if chunkEnd rest then some ((c :: acc).reverse, rest)
    else lazyCapture (c :: acc) rest
  | _, [] => none

/-- `re.findall(r"\d+[.:]\s*(.+?)(?=\d+[.:]|$)", cleaned, re.DOTALL)`.
When everything after `\d+[.:]` is whitespace the greedy `\s*` gives one
character back to `(.+?)` and the match ends at `$`; if there is no such
character the position does not match and scanning advances. -/
def findChunksF : Nat → List Char → List (List Char)
  | 0, _ => []
  | fuel + 1, cs =>
    match cs with
    | [] => []
    | c :: rest =>
      if startsNumDot (c :: rest) then
        let ds := (c :: rest).takeWhile Char.isDigit
        let afterNum := (c :: rest).drop (ds.length + 1)
        let ws := afterNum.takeWhile isPyWs
        match lazyCapture [] (afterNum.drop ws.length) with
        | some (cap, rest2) => cap :: findChunksF fuel rest2
        | none =>
          match ws.getLast? with
          | some w => [[w]]
          | none => findChunksF fuel rest
      else findChunksF fuel rest

def findChunks (cs : List Char) : List (List Char) := findChunksF (cs.length + 1) cs

/-- `CSQE._extract_sentences`: quoted segments joined by spaces; otherwise
strip the header and join the whitespace-renormalised non-blank numbered
chunks; otherwise the empty string. -/
def extract_sentences (text : String) : String :=
  let quoted := findQuoted text.data
  if !quoted.isEmpty then ⟨sepJoin quoted⟩
  else
    let chunks := findChunks (subHeader text.data)
    if !chunks.isEmpty then
      ⟨sepJoin ((chunks.filter (fun c => !(pyStripP isPyWs c).isEmpty)).map
        (fun c => sepJoin (tokens c)))⟩
    else ""

/-! ### Claim C7 -/

/-- **C7.** The dual-source sentence extractor maps the quoted example to
the space-joined quoted contents, maps the headed numbered-list example to
the space-joined items in order, and maps any input in which neither
pattern matches to the empty string; it is a total function (never an
error). -/
theorem c7_extract_sentences_cases :
    extract_sentences "He said \"foo bar\" and \"baz\"" = "foo bar baz"
    ∧ extract_sentences "Relevant Documents:\n1. Foo\n2. Bar" = "Foo Bar"
    ∧ ∀ t : String, findQuoted t.data = [] → findChunks (subHeader t.data) = [] →
        extract_sentences t = "" := by
  refine ⟨by decide, by decide, ?_⟩
  intro t h1 h2
  simp only [extract_sentences, h1, h2]
  rfl

/-- Witness for C7 at an input exhibiting neither pattern. -/
theorem c7_extract_sentences_cases_witness :
    findQuoted ("no patterns here" : String).data = []
    ∧ findChunks (subHeader ("no patterns here" : String).data) = []
    ∧ extract_sentences "no patterns here" = "" :=
  ⟨rfl, rfl,
   (c7_extract_sentences_cases).2.2 "no patterns here" rfl rfl⟩

/-! ### The reformulation framework (`src/methods/*.py`)

The LLM client and the prompt bank are external collaborators; they enter
as oracle functions.  `gen_one` is indexed by the sequential call number
within one `reformulate_query` invocation, so the independent completions a
method makes are distinguishable; `known` models prompt-id presence
(`PromptBank.render` raises `KeyError` for unknown ids, which only `LameR`
catches); `dumps` models `json.dumps` on the string-keyed objects
`qa_expand` serialises into prompts. -/

structure Query where
  qid : String
  text : String

inductive MetaVal where
  | s (v : String)
  | ls (v : List String)
  | lj (v : List Json)
  | ln (v : List Nat)
  | n (v : Nat)

structure ReformulatedQuery where
  qid : String
  original : String
  reformulated : String
  metadata : List (String × MetaVal)

structure Oracles where
  render : String → List String → List (String × String)
  known : String → Bool
  gen_one : Nat → List (String × String) → String
  gen : List (String × String) → Nat → List String
  dumps : List (String × Json) → String

/-- The `params` dict of a method, with the `int(...)`-coerced numeric
entries and the string entries kept apart; `getI`/`getS` model
`int(self.params.get(k, d))` and `self.params.get(k, d)`. -/
structure Params where
  ints : List (String × Nat)
  strs : List (String × String)

def Params.getI (p : Params) (k : String) (d : Nat) : Nat :=
  (p.ints.lookup k).getD d

def Params.getS (p : Params) (k : String) (d : String) : String :=
  (p.strs.lookup k).getD d

/-- `"\n".join`-style joining with an arbitrary separator. -/
def joinWith (sep : List Char) : List (List Char) → List Char
  | [] => []
  | [x] => x
  | x :: y :: rest => x ++ sep ++ joinWith sep (y :: rest)

/-- The numbered context block `"\n".join(f"{i+1}. {p}" for i, p in
enumerate(ctxs))` used by CSQE and LameR. -/
def numberedBlock (ctxs : List String) : String :=
  ⟨joinWith ['\n'] (ctxs.enum.map
    (fun ic => (toString (ic.1 + 1)).data ++ '.' :: ' ' :: ic.2.data))⟩

/-- `.strip().strip('"').strip("'")` as applied to LameR passages. -/
def pyStrip3 (s : String) : String :=
  ⟨pyStripP (fun c => c = '\'') (pyStripP (fun c => c = '"') (pyStripP isPyWs s.data))⟩

/-- ASCII model of `str.lower()` (CSQE is the only caller). -/
def pyLower (s : String) : String := ⟨s.data.map Char.toLower⟩

/-- `GenQR.reformulate_query` (`genqr.py`). -/
def genqrReformulate (o : Oracles) (p : Params) (q : Query) : ReformulatedQuery :=
  let num_calls := p.getI "num_calls" 5
  let all_keywords := (List.range num_calls).map
    (fun i => o.gen_one i (o.render "genqr" [q.text]))
  let keyword_text := strJoinSpace all_keywords
  { qid := q.qid, original := q.text,
    reformulated := pyClean (q.text ++ " " ++ keyword_text),
    metadata := [("keywords", MetaVal.ls all_keywords)] }

/-- `GenQREnsemble.reformulate_query` (`genqr_ensemble.py`);
`NUM_INSTRUCTIONS = 10` is a class constant. -/
def genqrEnsembleReformulate (o : Oracles) (p : Params) (q : Query) : ReformulatedQuery :=
  let query_repeats := p.getI "query_repeats" 5
  let all_keywords := (List.range 10).map
    (fun i => o.gen_one i (o.render ("genqr_ens_" ++ toString (i + 1)) [q.text]))
  let keyword_text := strJoinSpace all_keywords
  { qid := q.qid, original := q.text,
    reformulated := concat_repeat q.text keyword_text query_repeats,
    metadata := [("keyword_sets", MetaVal.ls all_keywords)] }

/-- `Query2Keyword.reformulate_query` (`q2k.py`). -/
def q2kReformulate (o : Oracles) (p : Params) (q : Query) : ReformulatedQuery :=
  let query_repeats := p.getI "query_repeats" 5
  let keywords := o.gen_one 0 (o.render "q2k" [q.text])
  { qid := q.qid, original := q.text,
    reformulated := concat_repeat q.text keywords query_repeats,
    metadata := [("keywords", MetaVal.s keywords)] }

/-- `_Q2DBase.reformulate_query` (`q2d.py`); the three variants differ only
in the prompt id and in whether `examples` is injected (few-shot). -/
def q2dReformulate (promptId : String) (useExamples : Bool)
    (o : Oracles) (p : Params) (q : Query) : ReformulatedQuery :=
  let query_repeats := p.getI "query_repeats" 5
  let msgs := if useExamples then o.render promptId [q.text, p.getS "examples" ""]
              else o.render promptId [q.text]
  let passage := o.gen_one 0 msgs
  { qid := q.qid, original := q.text,
    reformulated := concat_repeat q.text passage query_repeats,
    metadata := [("pseudo_document", MetaVal.s passage)] }

/-- `MUGI.reformulate_query` (`mugi.py`). -/
def mugiReformulate (o : Oracles) (p : Params) (q : Query) : ReformulatedQuery :=
  let num_docs := p.getI "num_docs" 5
  let adaptive_ratio := p.getI "adaptive_ratio" 5
  let pseudo_docs := (List.range num_docs).map
    (fun i => o.gen_one i (o.render "mugi" [q.text]))
  let generated := strJoinSpace pseudo_docs
  { qid := q.qid, original := q.text,
    reformulated := concat_adaptive q.text generated adaptive_ratio,
    metadata := [("pseudo_docs", MetaVal.ls pseudo_docs)] }

/-- `CSQE.reformulate_query` (`csqe.py`). -/
def csqeReformulate (o : Oracles) (p : Params) (q : Query)
    (contexts : Option (List String)) : ReformulatedQuery :=
  let n_gen := p.getI "n_expansions" 2
  let ctx_k := p.getI "context_k" 10
  let keqe_passages := o.gen (o.render "keqe" [q.text]) n_gen
  let ctxs := (contexts.getD []).take ctx_k
  let ctx_blob := numberedBlock ctxs
  let csqe_raw := o.gen (o.render "csqe" [q.text, ctx_blob]) n_gen
  let csqe_sentences := csqe_raw.map extract_sentences
  let parts := List.replicate n_gen q.text ++ keqe_passages ++ csqe_sentences
  { qid := q.qid, original := q.text,
    reformulated := pyLower (pyClean (strJoinSpace parts)),
    metadata := [("keqe_passages", MetaVal.ls keqe_passages),
                 ("csqe_sentences", MetaVal.ls csqe_sentences),
                 ("n_contexts_used", MetaVal.n ctxs.length)] }

/-- `LameR.reformulate_query` (`lamer.py`); a missing dataset-specific
prompt id falls back to the generic `lamer_msmarco`. -/
def lamerReformulate (o : Oracles) (p : Params) (q : Query)
    (contexts : Option (List String)) : ReformulatedQuery :=
  let num_gen := p.getI "num_passages" 5
  let ctx_k := p.getI "context_k" 10
  let dataset_tag := p.getS "dataset" "msmarco"
  let ctxs := (contexts.getD []).take ctx_k
  let ctx_blob := numberedBlock ctxs
  let prompt_id := if o.known ("lamer_" ++ dataset_tag) then "lamer_" ++ dataset_tag
                   else "lamer_msmarco"
  let passages := (List.range num_gen).map
    (fun i => pyStrip3 (o.gen_one i (o.render prompt_id [q.text, ctx_blob])))
  { qid := q.qid, original := q.text,
    reformulated := concat_interleave q.text passages,
    metadata := [("generated_passages", MetaVal.ls passages),
                 ("n_contexts_used", MetaVal.n ctxs.length)] }

/-- `{f"{pre}{i+1}": x for i, x in enumerate(xs)}`. -/
def enumKeys (pre : String) (xs : List Json) : List (String × Json) :=
  xs.enum.map (fun ix => (pre ++ toString (ix.1 + 1), ix.2))

/-- `QAExpand.reformulate_query` (`qa_expand.py`).  Returns `none` exactly
when the Python code raises: the list comprehension
`[_clean(a) for a in selected if a.strip()]` calls `.strip()` on every
selected answer, which raises `AttributeError` (uncaught here) if a parsed
answer value is not a string. -/
def qaExpandReformulate (o : Oracles) (p : Params) (q : Query) :
    Option ReformulatedQuery :=
  let num_subq := p.getI "num_subquestions" 3
  let query_repeats := p.getI "query_repeats" 3
  let raw_sq := o.gen_one 0 (o.render "qa_expand_subq" [q.text])
  let subquestions := parse_list raw_sq num_subq "question"
  let questions_json := o.dumps (enumKeys "question" subquestions)
  let raw_ans := o.gen_one 1 (o.render "qa_expand_answer" [questions_json])
  let answers := parse_list raw_ans num_subq "answer"
  let answers_json := o.dumps (enumKeys "answer" answers)
  let raw_ref := o.gen_one 2 (o.render "qa_expand_refine" [q.text, answers_json])
  let kept := extract_kept_answers raw_ref num_subq
  let selected := kept.filterMap (fun i => answers[i]?)
  if selected.all isStrJson then
    let cleaned := selected.filterMap (fun a =>
      match a with
      | .str s => if !(pyStripP isPyWs s.data).isEmpty then some (pyClean s) else none
      | _ => none)
    some { qid := q.qid, original := q.text,
           reformulated := concat_repeat q.text (strJoinSpace cleaned) query_repeats,
           metadata := [("subquestions", MetaVal.lj subquestions),
                        ("answers", MetaVal.lj answers),
                        ("kept_indices", MetaVal.ln kept)] }
  else none

/-- The strategy registry (`methods/__init__.py`). -/
inductive MethodName where
  | genqr | genqr_ensemble | q2k | q2d_zs | q2d_fs | q2d_cot
  | qa_expand | mugi | csqe | lamer

/-- Registry dispatch of `reformulate_query`.  `none` models an uncaught
exception (possible only for `qa_expand`). -/
def reformulate (name : MethodName) (o : Oracles) (p : Params) (q : Query)
    (contexts : Option (List String)) : Option ReformulatedQuery :=
  match name with
  | .genqr => some (genqrReformulate o p q)
  | .genqr_ensemble => some (genqrEnsembleReformulate o p q)
  | .q2k => some (q2kReformulate o p q)
  | .q2d_zs => some (q2dReformulate "q2d_zs" false o p q)
  | .q2d_fs => some (q2dReformulate "q2d_fs" true o p q)
  | .q2d_cot => some (q2dReformulate "q2d_cot" false o p q)
  | .qa_expand => qaExpandReformulate o p q
  | .mugi => some (mugiReformulate o p q)
  | .csqe => some (csqeReformulate o p q contexts)
  | .lamer => some (lamerReformulate o p q contexts)

/-! ### Claim C4 -/

/-- **C4.** For every strategy in the registry, every parameter set, every
oracle behaviour and every input query: whenever `reformulate_query`
returns a `ReformulatedQuery`, its `qid` equals the input query's `qid`
and its `original` equals the input query's `text`, unmodified. -/
theorem c4_qid_original_invariant (name : MethodName) (o : Oracles) (p : Params)
    (q : Query) (contexts : Option (List String)) (r : ReformulatedQuery)
    (h : reformulate name o p q contexts = some r) :
    r.qid = q.qid ∧ r.original = q.text := by
  cases name with
  | qa_expand =>
    simp only [reformulate, qaExpandReformulate] at h
    split at h
    · injection h with h2
      subst h2
      exact ⟨rfl, rfl⟩
    · exact Option.noConfusion h
  | genqr => injection h with h2; subst h2; exact ⟨rfl, rfl⟩
  | genqr_ensemble => injection h with h2; subst h2; exact ⟨rfl, rfl⟩
  | q2k => injection h with h2; subst h2; exact ⟨rfl, rfl⟩
  | q2d_zs => injection h with h2; subst h2; exact ⟨rfl, rfl⟩
  | q2d_fs => injection h with h2; subst h2; exact ⟨rfl, rfl⟩
  | q2d_cot => injection h with h2; subst h2; exact ⟨rfl, rfl⟩
  | mugi => injection h with h2; subst h2; exact ⟨rfl, rfl⟩
  | csqe => injection h with h2; subst h2; exact ⟨rfl, rfl⟩
  | lamer => injection h with h2; subst h2; exact ⟨rfl, rfl⟩

/-- Stub collaborators and empty parameters for concrete instantiations. -/
def oracles0 : Oracles :=
  { render := fun _ _ => [], known := fun _ => false,
    gen_one := fun _ _ => "k", gen := fun _ n => List.replicate n "k",
    dumps := fun _ => "\x7b\x7d" }

def params0 : Params := ⟨[], []⟩

/-- Witness for C4 with the Q2K strategy on query `("7", "t")`. -/
theorem c4_qid_original_invariant_witness :
    (reformulate .q2k oracles0 params0 ⟨"7", "t"⟩ none).map ReformulatedQuery.qid
      = some "7"
    ∧ (reformulate .q2k oracles0 params0 ⟨"7", "t"⟩ none).map ReformulatedQuery.original
      = some "t" := by
  obtain ⟨r, hr⟩ : ∃ r, reformulate .q2k oracles0 params0 ⟨"7", "t"⟩ none = some r :=
    ⟨_, rfl⟩
  have h := c4_qid_original_invariant .q2k oracles0 params0 ⟨"7", "t"⟩ none r hr
  rw [hr]
  simp [h.1, h.2]

/-! ### Claim C5 -/

/-- **C5 counterexample.**  With default parameters `query_repeats`
defaults to 5 in `Query2Keyword.reformulate_query`, so for query `"q"` and
stub completion `"k"` the output is `"q q q q q k"` — the query is repeated,
not merely prefixed once as the claim states (`"q k"`). -/
theorem c5_counterexample :
    (reformulate .q2k oracles0 params0 ⟨"1", "q"⟩ none).map ReformulatedQuery.reformulated
      = some "q q q q q k"
    ∧ (reformulate .q2k oracles0 params0 ⟨"1", "q"⟩ none).map ReformulatedQuery.reformulated
      ≠ some "q k" :=
  ⟨rfl, by decide⟩

/-- **C5 (amended).** For every input query — with no proviso — the
single-call keyword expansion makes one LLM call and composes via
`concat_repeat`: its reformulated string is the query repeated
`query_repeats` times (default 5) followed by the single completion.
Additionally, for quote-free query and completion, the token-level shape
is exactly that many copies of the query's tokens before the completion's
tokens. -/
theorem c5_q2k_single_call_repeat (o : Oracles) (p : Params) (q : Query)
    (contexts : Option (List String)) :
    (reformulate .q2k o p q contexts).map ReformulatedQuery.reformulated =
      some (concat_repeat q.text (o.gen_one 0 (o.render "q2k" [q.text]))
        (p.getI "query_repeats" 5))
    ∧ ((∀ c ∈ q.text.data, c ≠ '"' ∧ c ≠ '\'') →
       (∀ c ∈ (o.gen_one 0 (o.render "q2k" [q.text])).data, c ≠ '"' ∧ c ≠ '\'') →
      tokens (concat_repeat q.text (o.gen_one 0 (o.render "q2k" [q.text]))
        (p.getI "query_repeats" 5)).data =
      (List.replicate (p.getI "query_repeats" 5) (tokens q.text.data)).flatten ++
        tokens (o.gen_one 0 (o.render "q2k" [q.text])).data) :=
  ⟨rfl, fun hq hk => tokens_concat_repeat _ _ _ hq hk⟩

/-- Witness for C5 (amended) with the stub oracle (`query_repeats` left at
its default of 5), discharging the token clause's side conditions. -/
theorem c5_q2k_single_call_repeat_witness :
    ((reformulate .q2k oracles0 params0 ⟨"1", "q"⟩ none).map ReformulatedQuery.reformulated =
        some (concat_repeat "q" (oracles0.gen_one 0 (oracles0.render "q2k" ["q"]))
          (params0.getI "query_repeats" 5)))
    ∧ tokens (concat_repeat "q" (oracles0.gen_one 0 (oracles0.render "q2k" ["q"]))
          (params0.getI "query_repeats" 5)).data =
        (List.replicate (params0.getI "query_repeats" 5) (tokens ("q" : String).data)).flatten ++
          tokens (oracles0.gen_one 0 (oracles0.render "q2k" ["q"])).data :=
  ⟨(c5_q2k_single_call_repeat oracles0 params0 ⟨"1", "q"⟩ none).1,
   (c5_q2k_single_call_repeat oracles0 params0 ⟨"1", "q"⟩ none).2 (by decide) (by decide)⟩

/-! ### `evaluate` (`src/evaluation.py` lines 13–78)

The evaluation collaborator (`pyserini.eval.trec_eval` run as a
subprocess) is external; it enters as an oracle from the requested
trec-metric name to a process result.  Metric values are kept abstractly:
`nan` is Python's `float("nan")` and `val lex` a successfully parsed float
literal, so no floating-point arithmetic is modelled (none is performed by
the code either). -/

inductive MetricVal where
  | nan
  | val (lex : String)
deriving DecidableEq

structure ProcResult where
  returncode : Int
  stdout : String
deriving DecidableEq

/-- The exponent suffix of a Python float literal (empty or
`[eE][+-]?digits`), requiring the rest to be fully consumed. -/
def floatExpOk : List Char → Bool
  | [] => true
  | e :: rest =>
    if e = 'e' ∨ e = 'E' then
      match rest with
      | s :: r2 =>
        if s = '+' ∨ s = '-' then
          let ds := r2.takeWhile Char.isDigit
          !ds.isEmpty && (r2.drop ds.length).isEmpty
        else
          let ds := (s :: r2).takeWhile Char.isDigit
          !ds.isEmpty && ((s :: r2).drop ds.length).isEmpty
      | [] => false
    else false

/-- Unsigned numeric core of a Python float literal:
`digits[.digits][exp]` or `.digits[exp]`, with at least one mantissa
digit. -/
def floatLitCore (cs : List Char) : Bool :=
  let ip := cs.takeWhile Char.isDigit
  match cs.drop ip.length with
  | '.' :: r2 =>
    let fp := r2.takeWhile Char.isDigit
    if ip.isEmpty && fp.isEmpty then false
    else floatExpOk (r2.drop fp.length)
  | r1 => if ip.isEmpty then false else floatExpOk r1

/-- Does `float(s)` succeed?  Models Python's float constructor: optional
surrounding whitespace, optional sign, then a numeric literal or one of
the case-insensitive words `inf`, `infinity`, `nan`. -/
def isFloatLit (s : String) : Bool :=
  let t := pyStripP isPyWs s.data
  let core := match t with
    | '+' :: r => r
    | '-' :: r => r
    | r => r
  let low := core.map Char.toLower
  if low = "inf".data ∨ low = "infinity".data ∨ low = "nan".data then true
  else floatLitCore core

/-- `metric.replace("_", ".", 1) if "_" in metric else metric`: replace the
first underscore by a dot (the two branches coincide when there is no
underscore). -/
def replaceFirstUnderscore : List Char → List Char
  | [] => []
  | '_' :: rest => '.' :: rest
  | c :: rest => c :: replaceFirstUnderscore rest

def trecMetricName (m : String) : String := ⟨replaceFirstUnderscore m.data⟩

/-- The stdout scan of `evaluate`: over `proc.stdout.strip().splitlines()`,
keep the value of the last row with at least three whitespace tokens whose
second token is `all` and whose third token parses as a float; rows whose
third token does not parse are passed over (`except ValueError: pass`). -/
def parseAggRows (out : String) : Option String :=
  (splitLines (pyStripP isPyWs out.data)).foldl
    (fun acc line =>
      let parts := tokens line
      match parts[1]?, parts[2]? with
      | some p1, some p2 =>
        if p1 = "all".data then
          (if isFloatLit ⟨p2⟩ then some (⟨p2⟩ : String) else acc)
        else acc
      | _, _ => acc)
    none

/-- One iteration of the metric loop in `evaluate`: a non-zero exit yields
`float("nan")` for the metric; a zero exit yields the last parsed aggregate
row, or no entry at all when none parses. -/
def evalOne (oracle : String → ProcResult) (metric : String) : Option MetricVal :=
  let proc := oracle (trecMetricName metric)
  if proc.returncode ≠ 0 then some .nan
  else (parseAggRows proc.stdout).map .val

/-- `evaluate`: the per-metric results mapping; each metric's entry depends
only on its own collaborator invocation. -/
def evaluateRun (metrics : List String) (oracle : String → ProcResult) :
    List (String × MetricVal) :=
  metrics.filterMap (fun m => (evalOne oracle m).map (fun v => (m, v)))

/-! ### Claim C8 -/

/-- **C8 counterexample.**  When the collaborator exits zero but its output
has no parseable aggregate row, the claim requires the metric to be present
with NaN; the code instead leaves the metric out of the returned mapping
entirely (only the non-zero-exit path writes NaN). -/
theorem c8_counterexample :
    evaluateRun ["ndcg_cut_10"] (fun _ => ⟨0, "garbage output"⟩) = []
    ∧ List.lookup "ndcg_cut_10"
        (evaluateRun ["ndcg_cut_10"] (fun _ => ⟨0, "garbage output"⟩))
      ≠ some MetricVal.nan :=
  ⟨rfl, by decide⟩

/-- **C8 (amended).** Per metric: a non-zero collaborator exit yields NaN,
present in the mapping; a zero exit whose output has no parseable aggregate
row leaves that metric absent (not NaN); a zero exit with a parseable row
yields that row's value.  The mapping is computed independently per metric
(a `filterMap` over the metric list), so failing metrics never affect
succeeding ones, and `evaluate` never raises (it is a total function). -/
theorem c8_evaluate_failure_modes (metrics : List String)
    (oracle : String → ProcResult) :
    (∀ m, (oracle (trecMetricName m)).returncode ≠ 0 →
      evalOne oracle m = some MetricVal.nan)
    ∧ (∀ m, (oracle (trecMetricName m)).returncode = 0 →
        parseAggRows (oracle (trecMetricName m)).stdout = none →
        evalOne oracle m = none)
    ∧ (∀ m v, (oracle (trecMetricName m)).returncode = 0 →
        parseAggRows (oracle (trecMetricName m)).stdout = some v →
        evalOne oracle m = some (MetricVal.val v))
    ∧ evaluateRun metrics oracle =
        metrics.filterMap (fun m => (evalOne oracle m).map (fun v => (m, v))) := by
  refine ⟨?_, ?_, ?_, rfl⟩
  · intro m hm
    simp only [evalOne, if_pos hm]
  · intro m hm hp
    have hne : ¬((oracle (trecMetricName m)).returncode ≠ 0) := by simp [hm]
    simp only [evalOne, if_neg hne, hp, Option.map_none']
  · intro m v hm hp
    have hne : ¬((oracle (trecMetricName m)).returncode ≠ 0) := by simp [hm]
    simp only [evalOne, if_neg hne, hp, Option.map_some']

/-- Oracle for the C8 witness: `recall.100` fails with exit 1, every other
metric prints a parseable aggregate row. -/
def procOracle0 : String → ProcResult :=
  fun tm => if tm = "recall.100" then ⟨1, "error"⟩ else ⟨0, "metric all 0.5"⟩

/-- Witness for C8 (amended): the failing metric is present with NaN, the
succeeding one is unaffected, and the full mapping is exactly both. -/
theorem c8_evaluate_failure_modes_witness :
    evalOne procOracle0 "recall_100" = some MetricVal.nan
    ∧ evalOne procOracle0 "ndcg_cut_10" = some (MetricVal.val "0.5")
    ∧ evaluateRun ["ndcg_cut_10", "recall_100"] procOracle0 =
        [("ndcg_cut_10", MetricVal.val "0.5"), ("recall_100", MetricVal.nan)] := by
  refine ⟨(c8_evaluate_failure_modes [] procOracle0).1 "recall_100" (by decide),
    (c8_evaluate_failure_modes [] procOracle0).2.2.1 "ndcg_cut_10" "0.5" (by decide) rfl,
    ?_⟩
  rfl

/-! ### Pipeline orchestrator: per-cell retrieval and evaluation loops
(`scripts/run_pipeline.py` lines 115–162)

For one (LLM, method, dataset) triple the orchestrator loops over the
retrievers twice: retrieval (with file-existence caching and a
`try/except` around `run_retrieval`), then evaluation (guarded by run-file
existence, with a `try/except` around `evaluate`).  The filesystem is the
set of existing run files; a successful `run_retrieval` writes its output
run file, a raised one does not. -/

structure PipeState where
  files : List String
  results : List (String × List (String × MetricVal))
  log : List String

/-- External collaborators for one cell: `run_retrieval` and `evaluate`
per retriever name; `Except` carries a raised exception's message. -/
structure CellOracle where
  retrieve : String → Except String Unit
  evalRun : String → Except String (List (String × MetricVal))

def runFileName (ds ret : String) : String := ds ++ "." ++ ret ++ ".run"

/-- `key = f"{llm_name}/{method_name}/{ds}/{ret}"`. -/
def cellKey (llm method ds ret : String) : String :=
  llm ++ "/" ++ method ++ "/" ++ ds ++ "/" ++ ret

/-- Step 2 (retrieval) over the retriever list: skip cached run files;
otherwise call the collaborator, adding the produced run file on success
and logging the caught exception on failure without aborting the loop. -/
def retrieveStage (o : CellOracle) (ds : String) (retrievers : List String)
    (st : PipeState) : PipeState :=
  retrievers.foldl
    (fun st ret =>
      if runFileName ds ret ∈ st.files then
        { st with log := st.log ++ ["[CACHED] " ++ runFileName ds ret] }
      else
        match o.retrieve ret with
        | .ok _ => { st with files := st.files ++ [runFileName ds ret] }
        | .error e => { st with log := st.log ++ ["[ERROR] " ++ ret ++ ": " ++ e] })
    st

/-- Step 3 (evaluation) over the retriever list: retrievers without a run
file are skipped; metric records are accumulated under the cell key on
success, caught failures are logged. -/
def evalStage (o : CellOracle) (llm method ds : String) (retrievers : List String)
    (st : PipeState) : PipeState :=
  retrievers.foldl
    (fun st ret =>
      if runFileName ds ret ∈ st.files then
        match o.evalRun ret with
        | .ok metrics =>
          { st with results := st.results ++ [(cellKey llm method ds ret, metrics)] }
        | .error e => { st with log := st.log ++ ["[ERROR] eval " ++ ret ++ ": " ++ e] }
      else st)
    st

/-- Steps 2 and 3 for one (LLM, method, dataset) cell. -/
def retrieveEvalCell (o : CellOracle) (llm method ds : String)
    (retrievers : List String) (st : PipeState) : PipeState :=
  evalStage o llm method ds retrievers (retrieveStage o ds retrievers st)

/-! ### Claim C2 -/

/-- **C2.** Over the retriever grid `[A, B]` where A's retrieval raises and
B's succeeds: the run is a total function of the state (it completes
without raising), A's failure is caught and logged, B is still retrieved
and evaluated, and the final report gains exactly B's metrics under B's
cell key — no entry for A. -/
theorem c2_fault_isolation (o : CellOracle) (llm method ds A B e : String)
    (st : PipeState) (mB : List (String × MetricVal))
    (hA : o.retrieve A = .error e) (hB : o.retrieve B = .ok ())
    (hEB : o.evalRun B = .ok mB)
    (hfA : runFileName ds A ∉ st.files) (hfB : runFileName ds B ∉ st.files)
    (hrf : runFileName ds A ≠ runFileName ds B)
    (hkey : cellKey llm method ds A ≠ cellKey llm method ds B)
    (hresA : ∀ ms, (cellKey llm method ds A, ms) ∉ st.results) :
    (retrieveEvalCell o llm method ds [A, B] st).results =
      st.results ++ [(cellKey llm method ds B, mB)]
    ∧ ("[ERROR] " ++ A ++ ": " ++ e) ∈ (retrieveEvalCell o llm method ds [A, B] st).log
    ∧ ∀ ms, (cellKey llm method ds A, ms) ∉
        (retrieveEvalCell o llm method ds [A, B] st).results := by
  have hfinal : retrieveEvalCell o llm method ds [A, B] st =
      { files := st.files ++ [runFileName ds B],
        results := st.results ++ [(cellKey llm method ds B, mB)],
        log := st.log ++ ["[ERROR] " ++ A ++ ": " ++ e] } := by
    simp [retrieveEvalCell, retrieveStage, evalStage, hA, hB, hEB, hfA, hfB, hrf]
  rw [hfinal]
  refine ⟨rfl, by simp, ?_⟩
  intro ms hmem
  rcases List.mem_append.mp hmem with h | h
  · exact hresA ms h
  · rw [List.mem_singleton] at h
    exact hkey (congrArg Prod.fst h)

/-- Collaborators for the C2 witness: retriever `"A"` raises `"boom"`,
everything else succeeds. -/
def cellOracle0 : CellOracle :=
  { retrieve := fun r => if r = "A" then .error "boom" else .ok (),
    evalRun := fun _ => .ok [("ndcg_cut_10", MetricVal.val "0.5")] }

/-- Witness for C2 on an initially empty output directory. -/
theorem c2_fault_isolation_witness :
    (retrieveEvalCell cellOracle0 "l" "g" "d" ["A", "B"] ⟨[], [], []⟩).results =
      [(cellKey "l" "g" "d" "B", [("ndcg_cut_10", MetricVal.val "0.5")])]
    ∧ ("[ERROR] " ++ "A" ++ ": " ++ "boom") ∈
        (retrieveEvalCell cellOracle0 "l" "g" "d" ["A", "B"] ⟨[], [], []⟩).log
    ∧ ∀ ms, (cellKey "l" "g" "d" "A", ms) ∉
        (retrieveEvalCell cellOracle0 "l" "g" "d" ["A", "B"] ⟨[], [], []⟩).results := by
  have h := c2_fault_isolation cellOracle0 "l" "g" "d" "A" "B" "boom" ⟨[], [], []⟩
    [("ndcg_cut_10", MetricVal.val "0.5")] rfl rfl rfl (by simp) (by simp)
    (by decide) (by decide) (fun ms h => (List.not_mem_nil _ h))
  exact ⟨by simpa using h.1, h.2.1, h.2.2⟩

end Repro
